import Mathlib

/-!
# Verification of the detkey derivation pipeline

Shallow embedding of the core of the `detkey` repository: the deterministic
key-derivation pipeline in `internal/crypto/crypto.go` (Argon2id stretching,
HKDF-SHA256 expansion, the counter-based `deterministicReader` entropy source,
and the key-type dispatch of `DeriveAndGenerateKey`), together with the CLI
glue of `main.go` / the `package main` portion of `internal/output/output.go`
(`isValidKeyType`, `determineOutputFormat`, `containsString`, salt
resolution, and the password/key-type validation order of `main`).

Bytes are modelled as `Nat` (values < 256), byte strings as `List Nat`,
and the 64-bit counter of the reader as a `Nat` reduced modulo `2 ^ 64`
wherever the Go `uint64` would wrap.  External library primitives that the
repository only calls (Argon2id, `rsa.GenerateKey`, `ed25519.NewKeyFromSeed`)
are parameters of the pipeline: each is a pure function of the inputs the Go
code hands it.  SHA-256 and HKDF-SHA256, which the repository's own logic is
built around, are implemented concretely.
-/

namespace Detkey

/-! ## SHA-256 over byte lists -/

/-- Truncation to a 32-bit word, the implicit `uint32` arithmetic of SHA-256. -/
def w32 (x : Nat) : Nat := x % 4294967296

/-- 32-bit right rotation. -/
def rotr (n x : Nat) : Nat := w32 (Nat.lor (Nat.shiftRight x n) (Nat.shiftLeft x (32 - n)))

/-- Logical right shift. -/
def shr (n x : Nat) : Nat := Nat.shiftRight x n

/-- Three-way xor. -/
def xor3 (a b c : Nat) : Nat := Nat.xor (Nat.xor a b) c

/-- SHA-256 Σ₀. -/
def bigSigma0 (x : Nat) : Nat := xor3 (rotr 2 x) (rotr 13 x) (rotr 22 x)

/-- SHA-256 Σ₁. -/
def bigSigma1 (x : Nat) : Nat := xor3 (rotr 6 x) (rotr 11 x) (rotr 25 x)

/-- SHA-256 σ₀. -/
def smallSigma0 (x : Nat) : Nat := xor3 (rotr 7 x) (rotr 18 x) (shr 3 x)

/-- SHA-256 σ₁. -/
def smallSigma1 (x : Nat) : Nat := xor3 (rotr 17 x) (rotr 19 x) (shr 10 x)

/-- SHA-256 choice function. -/
def chV (e f g : Nat) : Nat := Nat.xor (Nat.land e f) (Nat.land (Nat.xor e 4294967295) g)

/-- SHA-256 majority function. -/
def majV (a b c : Nat) : Nat := xor3 (Nat.land a b) (Nat.land a c) (Nat.land b c)

/-- The 64 SHA-256 round constants. -/
def K256 : List Nat :=
  [1116352408, 1899447441, 3049323471, 3921009573,
   961987163, 1508970993, 2453635748, 2870763221,
   3624381080, 310598401, 607225278, 1426881987,
   1925078388, 2162078206, 2614888103, 3248222580,
   3835390401, 4022224774, 264347078, 604807628,
   770255983, 1249150122, 1555081692, 1996064986,
   2554220882, 2821834349, 2952996808, 3210313671,
   3336571891, 3584528711, 113926993, 338241895,
   666307205, 773529912, 1294757372, 1396182291,
   1695183700, 1986661051, 2177026350, 2456956037,
   2730485921, 2820302411, 3259730800, 3345764771,
   3516065817, 3600352804, 4094571909, 275423344,
   430227734, 506948616, 659060556, 883997877,
   958139571, 1322822218, 1537002063, 1747873779,
   1955562222, 2024104815, 2227730452, 2361852424,
   2428436474, 2756734187, 3204031479, 3329325298]

/-- The eight-word SHA-256 working state. -/
structure Hash8 where
  a : Nat
  b : Nat
  c : Nat
  d : Nat
  e : Nat
  f : Nat
  g : Nat
  h : Nat

/-- One SHA-256 round. -/
def step (k w : Nat) (s : Hash8) : Hash8 :=
  let t1 := w32 (s.h + bigSigma1 s.e + chV s.e s.f s.g + k + w)
  let t2 := w32 (bigSigma0 s.a + majV s.a s.b s.c)
  ⟨w32 (t1 + t2), s.a, s.b, s.c, w32 (s.d + t1), s.e, s.f, s.g⟩

/-- The first 16 message-schedule words of a 64-byte chunk, big-endian. -/
def word16 (chunk : List Nat) (i : Nat) : Nat :=
  chunk.getD (4 * i) 0 * 16777216 + chunk.getD (4 * i + 1) 0 * 65536 +
    chunk.getD (4 * i + 2) 0 * 256 + chunk.getD (4 * i + 3) 0

/-- Extend a message schedule by `n` further words. -/
def extendW (l : List Nat) : Nat → List Nat
  | 0 => l
  | n + 1 =>
    let l2 := extendW l n
    let t := l2.length
    l2 ++ [w32 (smallSigma1 (l2.getD (t - 2) 0) + l2.getD (t - 7) 0 +
                smallSigma0 (l2.getD (t - 15) 0) + l2.getD (t - 16) 0)]

/-- The full 64-word message schedule of one chunk. -/
def schedule (chunk : List Nat) : List Nat :=
  extendW ((List.range 16).map (word16 chunk)) 48

/-- Compress one 64-byte chunk into the running state. -/
def compressBlock (s0 : Hash8) (chunk : List Nat) : Hash8 :=
  let s := (List.zip K256 (schedule chunk)).foldl (fun s kw => step kw.1 kw.2 s) s0
  ⟨w32 (s0.a + s.a), w32 (s0.b + s.b), w32 (s0.c + s.c), w32 (s0.d + s.d),
   w32 (s0.e + s.e), w32 (s0.f + s.f), w32 (s0.g + s.g), w32 (s0.h + s.h)⟩

/-- SHA-256 initial state. -/
def H8init : Hash8 :=
  ⟨1779033703, 3144134277, 1013904242, 2773480762,
   1359893119, 2600822924, 528734635, 1541459225⟩

/-- Big-endian 8-byte encoding of a 64-bit value. -/
def be64 (n : Nat) : List Nat :=
  [n / 72057594037927936 % 256, n / 281474976710656 % 256, n / 1099511627776 % 256,
   n / 4294967296 % 256, n / 16777216 % 256, n / 65536 % 256, n / 256 % 256, n % 256]

/-- Big-endian 4-byte encoding of a 32-bit word. -/
def be32 (n : Nat) : List Nat :=
  [n / 16777216 % 256, n / 65536 % 256, n / 256 % 256, n % 256]

/-- SHA-256 padding: a 0x80 byte, zeros to 56 mod 64, and the bit length. -/
def padMsg (msg : List Nat) : List Nat :=
  msg ++ [128] ++ List.replicate ((64 - ((msg.length + 9) % 64)) % 64) 0 ++
    be64 ((8 * msg.length) % (2 ^ 64))

/-- Split a byte list into 64-byte chunks. -/
def chunks64 (l : List Nat) : List (List Nat) :=
  (List.range ((l.length + 63) / 64)).map (fun i => (l.drop (64 * i)).take 64)

/-- SHA-256 of a byte list, as a 32-byte list. -/
def sha256 (msg : List Nat) : List Nat :=
  let s := (chunks64 (padMsg msg)).foldl compressBlock H8init
  be32 s.a ++ be32 s.b ++ be32 s.c ++ be32 s.d ++ be32 s.e ++ be32 s.f ++ be32 s.g ++ be32 s.h

/-- A SHA-256 digest is always 32 bytes, as the Go `sha256.Sum` contract states. -/
theorem sha256_length (msg : List Nat) : (sha256 msg).length = 32 := by
  simp [sha256, be32]

/-! ## HMAC-SHA256 and HKDF-SHA256 (the Expander used by the pipeline) -/

/-- HMAC-SHA256 with the standard 64-byte block size. -/
def hmacSHA256 (key msg : List Nat) : List Nat :=
  let k0 := if 64 < key.length then sha256 key else key
  let k1 := k0 ++ List.replicate (64 - k0.length) 0
  sha256 ((k1.map (fun b => Nat.xor b 92)) ++ sha256 ((k1.map (fun b => Nat.xor b 54)) ++ msg))

/-- HKDF expansion: `n` counted HMAC blocks `T(1) ‖ … ‖ T(n)` and the last block. -/
def hkdfExpandBlocks (prk info : List Nat) : Nat → List Nat × List Nat
  | 0 => ([], [])
  | n + 1 =>
    let r := hkdfExpandBlocks prk info n
    let t2 := hmacSHA256 prk (r.2 ++ info ++ [n + 1])
    (r.1 ++ t2, t2)

/-- The full byte stream `hkdf.New(sha256.New, secret, salt, info)` can produce
(255 blocks of 32 bytes, the HKDF maximum). -/
def hkdfBytes (secret salt info : List Nat) : List Nat :=
  (hkdfExpandBlocks (hmacSHA256 salt secret) info 255).1

/-- UTF-8 bytes of an ASCII string, the Go `[]byte(s)` conversion. -/
def strToBytes (s : String) : List Nat := s.toList.map Char.toNat

/-! ## The deterministic entropy source (`deterministicReader` in crypto.go) -/

/-- `2 ^ 64`, the wrap-around modulus of the Go `uint64` counter. -/
def M64 : Nat := 2 ^ 64

/-- The eight little-endian counter bytes
`byte(c), byte(c >> 8), …, byte(c >> 56)` that `refillBuffer` hashes after
the seed. -/
def le64 (c : Nat) : List Nat :=
  [c % 256, c / 256 % 256, c / 65536 % 256, c / 16777216 % 256,
   c / 4294967296 % 256, c / 1099511627776 % 256, c / 281474976710656 % 256,
   c / 72057594037927936 % 256]

/-- The mutable state of Go's `deterministicReader` struct. -/
structure deterministicReader where
  seed : List Nat
  counter : Nat
  buffer : List Nat
  bufPos : Nat

/-- The `for i := 0; i < len(dr.buffer)/32; i++` loop of `refillBuffer`:
each iteration hashes `seed ‖ le64 counter` and increments the counter
(wrapping as a `uint64`).  Returns the concatenated chunks and the final
counter. -/
def refillLoop (seed : List Nat) : Nat → Nat → List Nat × Nat
  | c, 0 => ([], c)
  | c, k + 1 =>
    let chunk := sha256 (seed ++ le64 c)
    let r := refillLoop seed ((c + 1) % M64) k
    (chunk ++ r.1, r.2)

/-- `refillBuffer`: overwrite the first `32 * (len(buffer)/32)` buffer bytes
with fresh digests and reset `bufPos` to 0.  (With the fixed 8192-byte buffer
the drop-tail is empty; it is kept for fidelity to the `copy` semantics.) -/
def deterministicReader.refillBuffer (dr : deterministicReader) : deterministicReader :=
  let k := dr.buffer.length / 32
  let r := refillLoop dr.seed dr.counter k
  { dr with buffer := r.1 ++ dr.buffer.drop (32 * k), counter := r.2, bufPos := 0 }

/-- The reader state `newDeterministicReader` builds from a given internal
seed: counter 0, a fresh 8192-byte buffer (`make([]byte, 8192)`), `bufPos` 0,
then one pre-filling `refillBuffer` call. -/
def mkFromSeed (seed : List Nat) : deterministicReader :=
  deterministicReader.refillBuffer
    { seed := seed, counter := 0, buffer := List.replicate 8192 0, bufPos := 0 }

/-- The seed that `newDeterministicReader` silently substitutes when the
initial `io.ReadFull` fails: `copy(dr.seed[:], []byte("default-seed-for-rsa-generation"))`
overwrites the first 31 bytes of the zero-initialised 32-byte array, leaving
the final byte 0. -/
def fallbackSeed : List Nat := strToBytes "default-seed-for-rsa-generation" ++ [0]

/-- `newDeterministicReader`, with the upstream HKDF stream modelled as the
list of bytes it can still deliver.  `io.ReadFull(hkdf, dr.seed[:])` succeeds
iff 32 bytes are available; on failure the hardcoded fallback seed is used and
no error is reported.  The second component is the number of upstream bytes
consumed. -/
def newDeterministicReaderC (upstream : List Nat) : deterministicReader × Nat :=
  if 32 ≤ upstream.length then (mkFromSeed (upstream.take 32), 32)
  else (mkFromSeed fallbackSeed, upstream.length)

/-- The constructed reader itself. -/
def newDeterministicReader (upstream : List Nat) : deterministicReader :=
  (newDeterministicReaderC upstream).1

/-- The `Read` loop of `deterministicReader`, with an explicit iteration
budget `fuel` (each Go loop iteration consumes one unit; `none` means the
budget was exhausted).  `want` is `len(p) - totalRead`, `acc` the bytes
copied so far.  Each iteration refills the buffer if exhausted, then copies
`min(want, len(buffer)-bufPos)` bytes. -/
def readGo : Nat → Nat → List Nat → deterministicReader →
    Option (List Nat × deterministicReader)
  | 0, want, acc, dr => if want = 0 then some (acc, dr) else none
  | fuel + 1, want, acc, dr =>
    if want = 0 then some (acc, dr)
    else
      let dr1 := if dr.buffer.length ≤ dr.bufPos then dr.refillBuffer else dr
      let toCopy := min want (dr1.buffer.length - dr1.bufPos)
      readGo fuel (want - toCopy) (acc ++ (dr1.buffer.drop dr1.bufPos).take toCopy)
        { dr1 with bufPos := dr1.bufPos + toCopy }

/-! ## Reference stream semantics of the reader -/

/-- Reference stream: byte `j` of the infinite expansion of `(seed, c)` is
byte `j % 32` of `SHA-256(seed ‖ le64 ((c + j/32) % 2^64))`. -/
def streamByte (seed : List Nat) (c j : Nat) : Nat :=
  (sha256 (seed ++ le64 ((c + j / 32) % M64))).getD (j % 32) 0

/-- The future output stream of a reader state: unread buffer bytes first,
then the expansion of `(seed, counter)`. -/
def drStream (dr : deterministicReader) (j : Nat) : Nat :=
  if dr.bufPos + j < dr.buffer.length then dr.buffer.getD (dr.bufPos + j) 0
  else streamByte dr.seed dr.counter (dr.bufPos + j - dr.buffer.length)

/-- Invariant of every reader state reachable from `newDeterministicReader`:
nonempty buffer whose length is a multiple of 32, a cursor inside the buffer,
and a counter below the `uint64` wrap. -/
def Inv (dr : deterministicReader) : Prop :=
  0 < dr.buffer.length ∧ dr.bufPos ≤ dr.buffer.length ∧
    32 ∣ dr.buffer.length ∧ dr.counter < M64

theorem M64_pos : 0 < M64 := Nat.pos_pow_of_pos 64 (by decide)

/-! ## List helper lemmas -/

theorem drop_take_eq_map (l : List Nat) (t p : Nat) (h : p + t ≤ l.length) :
    (l.drop p).take t = (List.range t).map (fun j => l.getD (p + j) 0) := by
  apply List.ext_getElem
  · simp
    omega
  · intro i h1 h2
    simp only [List.getElem_take, List.getElem_drop, List.getElem_map, List.getElem_range]
    have hi : p + i < l.length := by
      simp only [List.length_take, List.length_drop, lt_min_iff] at h1
      omega
    exact (List.getD_eq_getElem l 0 hi).symm

theorem map_getD_range (l : List Nat) :
    (List.range l.length).map (fun r => l.getD r 0) = l := by
  apply List.ext_getElem
  · simp
  · intro i h1 h2
    simp only [List.getElem_map, List.getElem_range]
    exact List.getD_eq_getElem l 0 h2

/-! ## refill lemmas -/

theorem refillLoop_fst_length (seed : List Nat) :
    ∀ (k c : Nat), (refillLoop seed c k).1.length = 32 * k := by
  intro k
  induction k with
  | zero => intro c; simp [refillLoop]
  | succ k ih =>
    intro c
    simp [refillLoop, sha256_length, ih]
    omega

theorem refillLoop_snd (seed : List Nat) :
    ∀ (k c : Nat), c < M64 → (refillLoop seed c k).2 = (c + k) % M64 := by
  intro k
  induction k with
  | zero => intro c hc; simp [refillLoop, Nat.mod_eq_of_lt hc]
  | succ k ih =>
    intro c hc
    have h1 : (c + 1) % M64 < M64 := Nat.mod_lt _ M64_pos
    simp only [refillLoop]
    rw [ih _ h1, Nat.mod_add_mod]
    congr 1
    omega

theorem refillLoop_getD (seed : List Nat) :
    ∀ (k c q r : Nat), q < k → r < 32 → c < M64 →
      (refillLoop seed c k).1.getD (32 * q + r) 0 =
        (sha256 (seed ++ le64 ((c + q) % M64))).getD r 0 := by
  intro k
  induction k with
  | zero => intro c q r hq _ _; omega
  | succ k ih =>
    intro c q r hq hr hc
    simp only [refillLoop]
    match q with
    | 0 =>
      have hlen : r < (sha256 (seed ++ le64 c)).length := by rw [sha256_length]; omega
      rw [Nat.mul_zero, Nat.zero_add, List.getD_append _ _ _ _ hlen]
      rw [Nat.add_zero, Nat.mod_eq_of_lt hc]
    | q' + 1 =>
      have hlen : (sha256 (seed ++ le64 c)).length ≤ 32 * (q' + 1) + r := by
        rw [sha256_length]; omega
      rw [List.getD_append_right _ _ _ _ hlen, sha256_length]
      have hidx : 32 * (q' + 1) + r - 32 = 32 * q' + r := by omega
      rw [hidx, ih ((c + 1) % M64) q' r (by omega) hr (Nat.mod_lt _ M64_pos),
        Nat.mod_add_mod]
      have harg : c + 1 + q' = c + (q' + 1) := by omega
      rw [harg]

theorem refillBuffer_length (dr : deterministicReader) :
    dr.refillBuffer.buffer.length = dr.buffer.length := by
  have h : dr.buffer.length / 32 * 32 ≤ dr.buffer.length := Nat.div_mul_le_self _ _
  simp [deterministicReader.refillBuffer, refillLoop_fst_length]
  omega

theorem refillBuffer_seed (dr : deterministicReader) :
    dr.refillBuffer.seed = dr.seed := rfl

theorem refillBuffer_bufPos (dr : deterministicReader) :
    dr.refillBuffer.bufPos = 0 := rfl

theorem refillBuffer_counter (dr : deterministicReader) (hc : dr.counter < M64) :
    dr.refillBuffer.counter = (dr.counter + dr.buffer.length / 32) % M64 := by
  simp [deterministicReader.refillBuffer, refillLoop_snd dr.seed _ _ hc]

theorem refillBuffer_Inv (dr : deterministicReader) (hInv : Inv dr) :
    Inv dr.refillBuffer := by
  obtain ⟨h0, _, h32, hc⟩ := hInv
  refine ⟨?_, ?_, ?_, ?_⟩
  · rw [refillBuffer_length]; exact h0
  · rw [refillBuffer_bufPos]; omega
  · rw [refillBuffer_length]; exact h32
  · rw [refillBuffer_counter dr hc]; exact Nat.mod_lt _ M64_pos

theorem refillBuffer_buffer (dr : deterministicReader) (h32 : 32 ∣ dr.buffer.length) :
    dr.refillBuffer.buffer = (refillLoop dr.seed dr.counter (dr.buffer.length / 32)).1 := by
  have hkL : 32 * (dr.buffer.length / 32) = dr.buffer.length := Nat.mul_div_cancel' h32
  simp [deterministicReader.refillBuffer, hkL, List.drop_length]

theorem refillBuffer_stream (dr : deterministicReader)
    (h32 : 32 ∣ dr.buffer.length) (hc : dr.counter < M64) :
    ∀ j, drStream dr.refillBuffer j = streamByte dr.seed dr.counter j := by
  intro j
  have hkL : 32 * (dr.buffer.length / 32) = dr.buffer.length := Nat.mul_div_cancel' h32
  have hlen : dr.refillBuffer.buffer.length = dr.buffer.length := refillBuffer_length dr
  simp only [drStream, refillBuffer_bufPos, refillBuffer_seed, Nat.zero_add, hlen]
  by_cases hj : j < dr.buffer.length
  · rw [if_pos hj, refillBuffer_buffer dr h32]
    have hq : j / 32 < dr.buffer.length / 32 := by
      apply Nat.div_lt_div_of_lt_of_dvd h32 hj
    have hsplit : 32 * (j / 32) + j % 32 = j := Nat.div_add_mod j 32
    conv_lhs => rw [← hsplit]
    rw [refillLoop_getD dr.seed _ _ _ _ hq (Nat.mod_lt _ (by decide)) hc]
    rfl
  · rw [if_neg hj]
    rw [refillBuffer_counter dr hc]
    obtain ⟨t, ht⟩ : ∃ t, j = dr.buffer.length + t :=
      ⟨j - dr.buffer.length, by omega⟩
    subst ht
    have hdq : (dr.buffer.length + t) / 32 = dr.buffer.length / 32 + t / 32 := by
      conv_lhs => rw [← hkL]
      rw [Nat.mul_add_div (by decide)]
    have hdm : (dr.buffer.length + t) % 32 = t % 32 := by
      conv_lhs => rw [← hkL]
      rw [Nat.mul_add_mod]
    have hsub : dr.buffer.length + t - dr.buffer.length = t := by omega
    simp only [streamByte, hsub, hdq, hdm]
    have harg : ((dr.counter + dr.buffer.length / 32) % M64 + t / 32) % M64
        = (dr.counter + (dr.buffer.length / 32 + t / 32)) % M64 := by
      rw [Nat.mod_add_mod]
      congr 1
      omega
    rw [harg]

/-! ## The master read lemma: `Read` produces the reference stream -/

theorem drStream_bump (dr : deterministicReader) (n : Nat) :
    ∀ j, drStream { dr with bufPos := dr.bufPos + n } j = drStream dr (n + j) := by
  intro j
  simp only [drStream]
  have harg : dr.bufPos + n + j = dr.bufPos + (n + j) := by omega
  rw [harg]

theorem drStream_inBuffer (dr : deterministicReader) (j : Nat)
    (h : dr.bufPos + j < dr.buffer.length) :
    drStream dr j = dr.buffer.getD (dr.bufPos + j) 0 := by
  simp only [drStream, if_pos h]

/-- One iteration of the read loop, starting from a state whose cursor is
strictly inside the buffer, followed by the inductive hypothesis for the
remaining fuel. -/
theorem readGo_step (fuel want : Nat) (acc : List Nat) (dr1 : deterministicReader)
    (hInv1 : Inv dr1) (hlt : dr1.bufPos < dr1.buffer.length)
    (hw0 : want ≠ 0) (hw : want ≤ fuel + 1)
    (ih : ∀ (want : Nat) (acc : List Nat) (dr : deterministicReader), Inv dr → want ≤ fuel →
      ∃ dr2, readGo fuel want acc dr = some (acc ++ (List.range want).map (drStream dr), dr2)
        ∧ Inv dr2 ∧ ∀ j, drStream dr2 j = drStream dr (want + j)) :
    ∃ dr2, readGo fuel (want - min want (dr1.buffer.length - dr1.bufPos))
        (acc ++ (dr1.buffer.drop dr1.bufPos).take (min want (dr1.buffer.length - dr1.bufPos)))
        { dr1 with bufPos := dr1.bufPos + min want (dr1.buffer.length - dr1.bufPos) }
      = some (acc ++ (List.range want).map (drStream dr1), dr2)
      ∧ Inv dr2 ∧ ∀ j, drStream dr2 j = drStream dr1 (want + j) := by
  obtain ⟨hL0, hple, hdvd, hcnt⟩ := hInv1
  set toCopy := min want (dr1.buffer.length - dr1.bufPos) with htc
  have htc1 : 1 ≤ toCopy := by omega
  have htcw : toCopy ≤ want := Nat.min_le_left _ _
  have hfit : dr1.bufPos + toCopy ≤ dr1.buffer.length := by
    have := Nat.min_le_right want (dr1.buffer.length - dr1.bufPos)
    omega
  have hchunk : (dr1.buffer.drop dr1.bufPos).take toCopy
      = (List.range toCopy).map (drStream dr1) := by
    rw [drop_take_eq_map dr1.buffer toCopy dr1.bufPos hfit]
    apply List.map_congr_left
    intro j hj
    rw [List.mem_range] at hj
    exact (drStream_inBuffer dr1 j (by omega)).symm
  have hInv2 : Inv { dr1 with bufPos := dr1.bufPos + toCopy } :=
    ⟨hL0, hfit, hdvd, hcnt⟩
  obtain ⟨dr2, heq, hInv3, hshift⟩ :=
    ih (want - toCopy) (acc ++ (dr1.buffer.drop dr1.bufPos).take toCopy)
      { dr1 with bufPos := dr1.bufPos + toCopy } hInv2 (by omega)
  refine ⟨dr2, ?_, hInv3, ?_⟩
  · rw [heq]
    have hbump := drStream_bump dr1 toCopy
    have hout : acc ++ (dr1.buffer.drop dr1.bufPos).take toCopy
          ++ (List.range (want - toCopy)).map (drStream { dr1 with bufPos := dr1.bufPos + toCopy })
        = acc ++ (List.range want).map (drStream dr1) := by
      rw [List.append_assoc, hchunk]
      congr 1
      have hw' : want = toCopy + (want - toCopy) := by omega
      conv_rhs => rw [hw']
      rw [List.range_add, List.map_append, List.map_map]
      congr 1
      apply List.map_congr_left
      intro j _
      exact hbump j
    rw [hout]
  · intro j
    rw [hshift j, drStream_bump dr1 toCopy]
    congr 1
    omega

/-- Master lemma: from any state satisfying the reachability invariant, a
read of `want` bytes with at least `want` loop iterations of budget succeeds,
returns exactly the next `want` bytes of the reference stream, and leaves a
state satisfying the invariant whose stream is the `want`-shifted one. -/
theorem readGo_spec : ∀ (fuel want : Nat) (acc : List Nat) (dr : deterministicReader),
    Inv dr → want ≤ fuel →
    ∃ dr2, readGo fuel want acc dr
        = some (acc ++ (List.range want).map (drStream dr), dr2)
      ∧ Inv dr2 ∧ ∀ j, drStream dr2 j = drStream dr (want + j) := by
  intro fuel
  induction fuel with
  | zero =>
    intro want acc dr hInv hw
    have hw0 : want = 0 := Nat.le_zero.mp hw
    subst hw0
    exact ⟨dr, by simp [readGo], hInv, fun j => by rw [Nat.zero_add]⟩
  | succ fuel ih =>
    intro want acc dr hInv hw
    by_cases hw0 : want = 0
    · subst hw0
      exact ⟨dr, by simp [readGo], hInv, fun j => by rw [Nat.zero_add]⟩
    · by_cases hrf : dr.buffer.length ≤ dr.bufPos
      · -- the cursor is at the end of the buffer: refill first
        have hbp : dr.bufPos = dr.buffer.length :=
          Nat.le_antisymm hInv.2.1 hrf
        have hdr : ∀ j, drStream dr j = streamByte dr.seed dr.counter j := by
          intro j
          have hnl : ¬ (dr.bufPos + j < dr.buffer.length) := by omega
          simp only [drStream, if_neg hnl]
          congr 1
          omega
        have hrs : ∀ j, drStream dr.refillBuffer j = drStream dr j := by
          intro j
          rw [refillBuffer_stream dr hInv.2.2.1 hInv.2.2.2, hdr]
        have hrsf : drStream dr.refillBuffer = drStream dr := funext hrs
        have hInvR : Inv dr.refillBuffer := refillBuffer_Inv dr hInv
        have hltR : dr.refillBuffer.bufPos < dr.refillBuffer.buffer.length := by
          rw [refillBuffer_bufPos, refillBuffer_length]
          exact hInv.1
        obtain ⟨dr2, heq, hInv3, hshift⟩ :=
          readGo_step fuel want acc dr.refillBuffer hInvR hltR hw0 hw ih
        refine ⟨dr2, ?_, hInv3, ?_⟩
        · simp only [readGo, if_neg hw0, if_pos hrf]
          rw [heq, hrsf]
        · intro j
          rw [hshift j, hrsf]
      · have hlt : dr.bufPos < dr.buffer.length := Nat.lt_of_not_le hrf
        obtain ⟨dr2, heq, hInv3, hshift⟩ :=
          readGo_step fuel want acc dr hInv hlt hw0 hw ih
        refine ⟨dr2, ?_, hInv3, hshift⟩
        simp only [readGo, if_neg hw0, if_neg hrf]
        rw [heq]

/-! ## Lemmas about freshly constructed readers -/

theorem mkFromSeed_Inv (s : List Nat) : Inv (mkFromSeed s) := by
  apply refillBuffer_Inv
  refine ⟨?_, ?_, ?_, ?_⟩
  · show 0 < (List.replicate 8192 0).length
    rw [List.length_replicate]
    omega
  · show (0 : Nat) ≤ (List.replicate 8192 0).length
    omega
  · show 32 ∣ (List.replicate 8192 0).length
    rw [List.length_replicate]
    decide
  · exact M64_pos

theorem mkFromSeed_stream (s : List Nat) :
    ∀ j, drStream (mkFromSeed s) j = streamByte s 0 j := by
  intro j
  have h32 : 32 ∣ (deterministicReader.mk s 0 (List.replicate 8192 0) 0).buffer.length := by
    show 32 ∣ (List.replicate 8192 0).length
    rw [List.length_replicate]
    decide
  exact refillBuffer_stream (deterministicReader.mk s 0 (List.replicate 8192 0) 0) h32 M64_pos j

theorem mkFromSeed_seed (s : List Nat) : (mkFromSeed s).seed = s := rfl

/-! ## CLI glue from `main.go` / the `package main` part of `output.go` -/

/-- Go's `containsSubstring(s, substr)`: scan every window of length
`len(substr)`. -/
def containsSubstring (s sub : List Char) : Bool :=
  if s.length < sub.length then false
  else (List.range (s.length - sub.length + 1)).any
    (fun i => (s.drop i).take sub.length == sub)

/-- Go's `containsString(s, substr)`: a match only at `/`-delimited
boundaries — the whole string, a `substr + "/"` prefix, a `"/" + substr`
suffix, or an interior `"/" + substr + "/"` occurrence. -/
def containsString (s sub : List Char) : Bool :=
  decide (sub.length ≤ s.length) &&
    (s == sub ||
      (decide (sub.length < s.length) &&
        (s.take (sub.length + 1) == sub ++ ['/'] ||
         s.drop (s.length - (sub.length + 1)) == ('/' :: sub) ||
         containsSubstring s ('/' :: (sub ++ ['/'])))))

/-- Go's `isValidKeyType`. -/
def isValidKeyType (keyType : String) : Bool :=
  ["ed25519", "rsa2048", "rsa4096"].any (fun t => t == keyType)

/-- Go's `determineOutputFormat(format, context, keyType)`. -/
def determineOutputFormat (format : String) (context : List Char) (keyType : String) : String :=
  if format ≠ "auto" then format
  else if containsString context ("mtls".toList) then "pem"
  else if containsString context ("ssh".toList) then "ssh"
  else if keyType == "rsa2048" || keyType == "rsa4096" then "pem"
  else "ssh"

/-- The compiled-in default salt, `const SALT` in crypto.go. -/
def SALT : String := "a-unique-salt-for-detkey-v1"

/-- The `finalSalt` resolution of the current `main`: a non-empty `--salt`
flag wins, else a non-empty `DETKEY_SALT` environment value, else `SALT`. -/
def resolveSalt (saltFlag envSalt : String) : String :=
  if saltFlag ≠ "" then saltFlag
  else if envSalt ≠ "" then envSalt
  else SALT

/-! ## The derivation pipeline (`DeriveAndGenerateKey`) -/

/-- The `crypto.PrivateKey` result: an Ed25519 key (determined by its
32-byte seed via `ed25519.NewKeyFromSeed`) or an RSA key of the library's
representation `K`. -/
inductive GoPrivateKey (K : Type) where
  | ed (key : List Nat)
  | rsa (key : K)
deriving DecidableEq

/-- The external library primitives the pipeline calls, each modelled as a
pure function of exactly the inputs the Go code passes it:
`argon2.IDKey(password, salt, time, memory, threads, keyLen)`,
`rsa.GenerateKey(random, bits)` as a function of the byte stream the given
reader produces, and `ed25519.NewKeyFromSeed(seed)`. -/
structure ExternalPrimitives (K : Type) where
  argon2IDKey : List Nat → List Nat → Nat → Nat → Nat → Nat → List Nat
  rsaGenerateKey : (Nat → Nat) → Nat → Except String K
  ed25519NewKeyFromSeed : List Nat → List Nat

/-- `DeriveAndGenerateKey(password, salt, context, keyType)` from
`internal/crypto/crypto.go`.  `osRand` models the ambient OS randomness
(`crypto/rand`) available to the process; the pipeline never touches it.
The Go `switch` is the if-chain on `keyType`; the deterministic reader is
constructed on the HKDF stream, and `rsa.GenerateKey` observes exactly that
reader's output stream. -/
def DeriveAndGenerateKey {K : Type} (ext : ExternalPrimitives K) (osRand : Nat → Nat)
    (password salt : List Nat) (context keyType : String) :
    Except String (GoPrivateKey K) :=
  let masterSeed := ext.argon2IDKey password salt 1 (64 * 1024) 4 32
  let hkdfStream := hkdfBytes masterSeed salt (strToBytes context)
  if keyType = "rsa2048" then
    match ext.rsaGenerateKey (drStream (newDeterministicReader hkdfStream)) 2048 with
    | Except.ok k => Except.ok (GoPrivateKey.rsa k)
    | Except.error e => Except.error ("unable to generate rsa2048 key: " ++ e)
  else if keyType = "rsa4096" then
    match ext.rsaGenerateKey (drStream (newDeterministicReader hkdfStream)) 4096 with
    | Except.ok k => Except.ok (GoPrivateKey.rsa k)
    | Except.error e => Except.error ("unable to generate rsa4096 key: " ++ e)
  else if keyType = "ed25519" then
    if 32 ≤ hkdfStream.length then
      Except.ok (GoPrivateKey.ed (ext.ed25519NewKeyFromSeed (hkdfStream.take 32)))
    else Except.error "unable to read final seed from HKDF"
  else Except.error ("unsupported key type: " ++ keyType)

/-- The relevant control flow of the current `main`: require a context,
validate the key type, reject an empty password, resolve the salt, derive,
and pick the output format.  Failures are the `log.Fatal` messages. -/
def runMain {K : Type} (ext : ExternalPrimitives K) (osRand : Nat → Nat)
    (context keyType formatFlag saltFlag envSalt : String) (password : List Nat) :
    Except String (String × GoPrivateKey K) :=
  if context = "" then Except.error "Error: --context parameter is required."
  else if !(isValidKeyType keyType) then
    Except.error ("Error: unsupported key type '" ++ keyType ++
      "'. Supported types: ed25519, rsa2048, rsa4096")
  else if password.length = 0 then Except.error "Error: password cannot be empty."
  else
    match DeriveAndGenerateKey ext osRand password
        (strToBytes (resolveSalt saltFlag envSalt)) context keyType with
    | Except.error e => Except.error ("Error: key generation failed: " ++ e)
    | Except.ok k =>
      Except.ok (determineOutputFormat formatFlag context.toList keyType, k)

/-- A trivial instantiation of the external primitives, used only to build
concrete witness instances. -/
def dummyExt : ExternalPrimitives Unit :=
  ⟨fun _ _ _ _ _ _ => [], fun _ _ => Except.error "", fun s => s⟩

/-! ## Claim theorems -/

/-- C1: for every (password, salt, context, keyType), `DeriveAndGenerateKey`
is a deterministic function of its four inputs: its result does not depend on
the ambient OS randomness source, so two independent invocations with
identical inputs return byte-identical private key material.  (The external
primitives are pure functions of exactly the arguments the Go code passes
them, so determinism of the pipeline is its independence from everything
else, here the `osRand` stream.) -/
theorem deriveAndGenerateKey_deterministic {K : Type} (ext : ExternalPrimitives K)
    (r1 r2 : Nat → Nat) (password salt : List Nat) (context keyType : String) :
    DeriveAndGenerateKey ext r1 password salt context keyType
      = DeriveAndGenerateKey ext r2 password salt context keyType := rfl

/-- C2: from any reachable reader state, reading `n` bytes then `m` bytes
yields the same `n + m`-byte sequence as a single read of `n + m` bytes —
no duplication or loss at buffer-refill boundaries.  (`fuel ≥ want` always
suffices for the loop, by `readGo_spec`.) -/
theorem read_n_then_m_eq_read_of_add (dr : deterministicReader) (n m f1 f2 f3 : Nat)
    (hInv : Inv dr) (h1 : n ≤ f1) (h2 : m ≤ f2) (h3 : n + m ≤ f3) :
    ∃ a dr1 b dr2 c dr3,
      readGo f1 n [] dr = some (a, dr1) ∧
      readGo f2 m [] dr1 = some (b, dr2) ∧
      readGo f3 (n + m) [] dr = some (c, dr3) ∧
      c = a ++ b := by
  obtain ⟨dr1, he1, hInv1, hs1⟩ := readGo_spec f1 n [] dr hInv h1
  obtain ⟨dr2, he2, _, _⟩ := readGo_spec f2 m [] dr1 hInv1 h2
  obtain ⟨dr3, he3, _, _⟩ := readGo_spec f3 (n + m) [] dr hInv h3
  simp only [List.nil_append] at he1 he2 he3
  refine ⟨_, dr1, _, dr2, _, dr3, he1, he2, he3, ?_⟩
  rw [List.range_add, List.map_append, List.map_map]
  congr 1
  apply List.map_congr_left
  intro j _
  exact (hs1 j).symm

/-- C2 witness: with the internal seed equal to 32 zero bytes, one read of
8192 + 1 bytes equals a read of 8192 bytes followed by a read of 1 byte. -/
theorem read_n_then_m_eq_read_of_add_witness :
    ∃ a dr1 b dr2 c dr3,
      readGo 8192 8192 [] (mkFromSeed (List.replicate 32 0)) = some (a, dr1) ∧
      readGo 1 1 [] dr1 = some (b, dr2) ∧
      readGo 8193 (8192 + 1) [] (mkFromSeed (List.replicate 32 0)) = some (c, dr3) ∧
      c = a ++ b :=
  read_n_then_m_eq_read_of_add (mkFromSeed (List.replicate 32 0)) 8192 1 8192 1 8193
    (mkFromSeed_Inv (List.replicate 32 0)) (by omega) (by omega) (by omega)

/-- C3: the output stream of a reader constructed with internal seed `s`
matches the reference definition: for every block index `i` below the
`uint64` wrap, bytes `32 i .. 32 i + 31` of the output are exactly
`SHA-256(s ‖ LE64(i))` — the counter starts at 0, is incremented after each
digest, and is never reset across refills. -/
theorem reader_block_i_is_sha256_of_le64 (s : List Nat) (i fuel : Nat)
    (hi : i < M64) (hf : 32 * (i + 1) ≤ fuel) :
    ∃ out dr2, readGo fuel (32 * (i + 1)) [] (mkFromSeed s) = some (out, dr2)
      ∧ (out.drop (32 * i)).take 32 = sha256 (s ++ le64 i)
      ∧ out.length = 32 * (i + 1) := by
  obtain ⟨dr2, he, _, _⟩ :=
    readGo_spec fuel (32 * (i + 1)) [] (mkFromSeed s) (mkFromSeed_Inv s) hf
  simp only [List.nil_append] at he
  refine ⟨_, dr2, he, ?_, by simp⟩
  have hsm : (List.range (32 * (i + 1))).map (drStream (mkFromSeed s))
      = (List.range (32 * (i + 1))).map (streamByte s 0) :=
    List.map_congr_left (fun j _ => mkFromSeed_stream s j)
  rw [hsm, show 32 * (i + 1) = 32 * i + 32 by ring, List.range_add,
    List.map_append, List.map_map]
  have hlen1 : ((List.range (32 * i)).map (streamByte s 0)).length = 32 * i := by simp
  rw [List.drop_left' hlen1]
  have hlen2 : ((List.range 32).map (streamByte s 0 ∘ (fun j => 32 * i + j))).length ≤ 32 := by
    simp
  rw [List.take_of_length_le hlen2]
  conv_rhs => rw [← map_getD_range (sha256 (s ++ le64 i))]
  rw [sha256_length]
  apply List.map_congr_left
  intro r hr
  rw [List.mem_range] at hr
  show streamByte s 0 (32 * i + r) = (sha256 (s ++ le64 i)).getD r 0
  have hdiv : (32 * i + r) / 32 = i := by
    rw [Nat.mul_add_div (by decide), Nat.div_eq_of_lt hr, Nat.add_zero]
  have hmod : (32 * i + r) % 32 = r := by
    rw [Nat.mul_add_mod, Nat.mod_eq_of_lt hr]
  rw [streamByte, hdiv, hmod, Nat.zero_add, Nat.mod_eq_of_lt hi]

/-- C3 witness: block 0 of the zero-seed reader is `SHA-256(seed ‖ LE64(0))`. -/
theorem reader_block_i_is_sha256_of_le64_witness :
    ∃ out dr2,
      readGo 32 (32 * (0 + 1)) [] (mkFromSeed (List.replicate 32 0)) = some (out, dr2)
      ∧ (out.drop (32 * 0)).take 32 = sha256 (List.replicate 32 0 ++ le64 0)
      ∧ out.length = 32 * (0 + 1) :=
  reader_block_i_is_sha256_of_le64 (List.replicate 32 0) 0 32
    (by rw [M64]; omega) (by omega)

/-- C4: when the upstream stream has at least 32 bytes, construction consumes
exactly 32 of them, and everything the reader ever does afterwards depends
only on those 32 bytes: two upstreams agreeing on their first 32 bytes give
readers with identical state and identical results for every later `Read`
(the Go struct keeps no reference to the upstream, so `Read` cannot touch
it). -/
theorem newDeterministicReader_consumes_exactly_32 (u : List Nat) (h : 32 ≤ u.length) :
    (newDeterministicReaderC u).2 = 32
    ∧ ∀ v : List Nat, 32 ≤ v.length → u.take 32 = v.take 32 →
        newDeterministicReader u = newDeterministicReader v
        ∧ ∀ fuel n acc, readGo fuel n acc (newDeterministicReader u)
            = readGo fuel n acc (newDeterministicReader v) := by
  constructor
  · rw [newDeterministicReaderC, if_pos h]
  · intro v hv htake
    have heq : newDeterministicReader u = newDeterministicReader v := by
      rw [newDeterministicReader, newDeterministicReader, newDeterministicReaderC,
        newDeterministicReaderC, if_pos h, if_pos hv]
      simp only [htake]
    exact ⟨heq, fun fuel n acc => by rw [heq]⟩

/-- C4 witness: a 40-byte upstream is consumed for exactly 32 bytes, and a
different upstream with the same first 32 bytes yields the same reader. -/
theorem newDeterministicReader_consumes_exactly_32_witness :
    (newDeterministicReaderC (List.replicate 40 7)).2 = 32
    ∧ newDeterministicReader (List.replicate 40 7)
        = newDeterministicReader (List.replicate 32 7 ++ List.replicate 8 9) := by
  have h := newDeterministicReader_consumes_exactly_32 (List.replicate 40 7) (by decide)
  exact ⟨h.1, (h.2 (List.replicate 32 7 ++ List.replicate 8 9) (by decide) (by decide)).1⟩

/-- C5: if the initial 32-byte seed read fails (fewer than 32 upstream bytes
are available), `newDeterministicReader` surfaces no error: it returns an
ordinary reader whose seed is the hardcoded fallback — the 31 bytes of
`"default-seed-for-rsa-generation"` over the zero-initialised 32-byte array —
and proceeds to produce entropy from it. -/
theorem newDeterministicReader_silent_fallback (u : List Nat) (h : u.length < 32) :
    newDeterministicReaderC u = (mkFromSeed fallbackSeed, u.length)
    ∧ (newDeterministicReaderC u).1.seed
        = strToBytes "default-seed-for-rsa-generation" ++ [0] := by
  have he : newDeterministicReaderC u = (mkFromSeed fallbackSeed, u.length) := by
    rw [newDeterministicReaderC, if_neg (by omega)]
  exact ⟨he, by rw [he]; exact mkFromSeed_seed _⟩

/-- C5 witness: an empty upstream still yields a fallback-seeded reader. -/
theorem newDeterministicReader_silent_fallback_witness :
    newDeterministicReaderC [] = (mkFromSeed fallbackSeed, ([] : List Nat).length)
    ∧ (newDeterministicReaderC []).1.seed
        = strToBytes "default-seed-for-rsa-generation" ++ [0] :=
  newDeterministicReader_silent_fallback [] (by decide)

/-- C6: an empty password is rejected by `main` with the empty-password error
before any cryptographic work: the result is the validation error, and it is
independent of every cryptographic primitive (Argon2id stretcher, RSA and
Ed25519 generators, OS randomness), i.e. none of them is ever run. -/
theorem runMain_empty_password_rejected {K : Type} (e1 e2 : ExternalPrimitives K)
    (r1 r2 : Nat → Nat) (ctx kt fm sf es : String)
    (hctx : ctx ≠ "") (hkt : isValidKeyType kt = true) :
    runMain e1 r1 ctx kt fm sf es [] = Except.error "Error: password cannot be empty."
    ∧ runMain e1 r1 ctx kt fm sf es [] = runMain e2 r2 ctx kt fm sf es [] := by
  have hcond : ¬ ((!(isValidKeyType kt)) = true) := by rw [hkt]; simp
  have hgen : ∀ (e : ExternalPrimitives K) (r : Nat → Nat),
      runMain e r ctx kt fm sf es []
        = Except.error "Error: password cannot be empty." := by
    intro e r
    rw [runMain, if_neg hctx, if_neg hcond]
    rfl
  exact ⟨hgen e1 r1, by rw [hgen e1 r1, hgen e2 r2]⟩

/-- C6 witness: concrete empty-password rejection. -/
theorem runMain_empty_password_rejected_witness :
    runMain dummyExt (fun _ => 0) "test/v1" "ed25519" "auto" "" "" []
      = Except.error "Error: password cannot be empty." :=
  (runMain_empty_password_rejected dummyExt dummyExt (fun _ => 0) (fun _ => 0)
    "test/v1" "ed25519" "auto" "" "" (by decide) (by decide)).1

/-- C7: any keyType outside {ed25519, rsa2048, rsa4096} makes
`DeriveAndGenerateKey` return the unsupported-key-type error (and hence no
private key) straight from the dispatch — the result does not depend on the
RSA or Ed25519 generators, so no key material is generated — and
`isValidKeyType` rejects it. -/
theorem deriveAndGenerateKey_unsupported_keyType {K : Type} (ext : ExternalPrimitives K)
    (r : Nat → Nat) (pw salt : List Nat) (ctx kt : String)
    (h1 : kt ≠ "ed25519") (h2 : kt ≠ "rsa2048") (h3 : kt ≠ "rsa4096") :
    DeriveAndGenerateKey ext r pw salt ctx kt
        = Except.error ("unsupported key type: " ++ kt)
    ∧ isValidKeyType kt = false := by
  constructor
  · simp only [DeriveAndGenerateKey]
    rw [if_neg h2, if_neg h3, if_neg h1]
  · rw [isValidKeyType]
    simp only [List.any_cons, List.any_nil, Bool.or_false, Bool.or_eq_false_iff,
      beq_eq_false_iff_ne]
    exact ⟨Ne.symm h1, Ne.symm h2, Ne.symm h3⟩

/-- C7 witness: `"rsa8192"` is rejected with the unsupported-key-type error. -/
theorem deriveAndGenerateKey_unsupported_keyType_witness :
    DeriveAndGenerateKey dummyExt (fun _ => 0) [] [] "c" "rsa8192"
        = Except.error ("unsupported key type: " ++ "rsa8192")
    ∧ isValidKeyType "rsa8192" = false :=
  deriveAndGenerateKey_unsupported_keyType dummyExt (fun _ => 0) [] [] "c" "rsa8192"
    (by decide) (by decide) (by decide)

/-- C8 counterexample: `determineOutputFormat` does NOT treat `"notssh/x"`
as an ssh context — `containsString` is not naive substring containment, so
with format `"auto"` and an RSA key type the context `"notssh/x"` yields
`"pem"`, not `"ssh"`. -/
theorem determineOutputFormat_notssh_not_ssh_context :
    containsString ("notssh/x".toList) ("ssh".toList) = false
    ∧ determineOutputFormat "auto" ("notssh/x".toList) "rsa2048" ≠ "ssh"
    ∧ determineOutputFormat "auto" ("notssh/x".toList) "rsa2048" = "pem" := by decide

/-- C8 amended: the format auto-detection matches context components only at
`/`-delimited boundaries (whole string, `"ssh/"` prefix, `"/ssh"` suffix, or
interior `"/ssh/"`), not by naive substring containment, so `"notssh/x"` is
not detected as an ssh context (an RSA key type then yields `"pem"`, and a
non-RSA key type yields `"ssh"` only as the unrelated default), while genuine
`/`-delimited ssh components are detected. -/
theorem determineOutputFormat_segment_matching :
    containsString ("ssh/x".toList) ("ssh".toList) = true
    ∧ containsString ("a/ssh/b".toList) ("ssh".toList) = true
    ∧ containsString ("a/ssh".toList) ("ssh".toList) = true
    ∧ containsString ("ssh".toList) ("ssh".toList) = true
    ∧ containsString ("notssh/x".toList) ("ssh".toList) = false
    ∧ containsString ("sshx/y".toList) ("ssh".toList) = false
    ∧ determineOutputFormat "auto" ("ssh/x".toList) "rsa2048" = "ssh"
    ∧ determineOutputFormat "auto" ("notssh/x".toList) "rsa2048" = "pem"
    ∧ determineOutputFormat "auto" ("notssh/x".toList) "ed25519" = "ssh" := by decide

/-- C9: from any reachable reader state (in particular any reader built by
`newDeterministicReader`, whose buffer has fixed positive length 8192), a
read of `n` bytes terminates within `n` loop iterations and returns exactly
`n` bytes with no error: every iteration after a refill copies at least one
byte. -/
theorem read_returns_full_request (dr : deterministicReader) (n fuel : Nat)
    (hInv : Inv dr) (hf : n ≤ fuel) :
    ∃ out dr2, readGo fuel n [] dr = some (out, dr2) ∧ out.length = n ∧ Inv dr2 := by
  obtain ⟨dr2, he, hInv2, _⟩ := readGo_spec fuel n [] dr hInv hf
  exact ⟨_, dr2, he, by simp, hInv2⟩

/-- C9 witness: a concrete constructed reader serves a 5-byte read with
budget 5. -/
theorem read_returns_full_request_witness :
    ∃ out dr2, readGo 5 5 [] (mkFromSeed []) = some (out, dr2)
      ∧ out.length = 5 ∧ Inv dr2 :=
  read_returns_full_request (mkFromSeed []) 5 5 (mkFromSeed_Inv []) (by omega)

/-- C10: the current `main` resolves the derivation salt with a fixed
three-level precedence: a non-empty `--salt` flag wins; otherwise a non-empty
`DETKEY_SALT` environment value; otherwise the compiled-in default
`"a-unique-salt-for-detkey-v1"`. -/
theorem resolveSalt_three_level_precedence (f e : String) :
    (f ≠ "" → resolveSalt f e = f)
    ∧ (f = "" → e ≠ "" → resolveSalt f e = e)
    ∧ (f = "" → e = "" → resolveSalt f e = SALT)
    ∧ SALT = "a-unique-salt-for-detkey-v1" := by
  refine ⟨?_, ?_, ?_, rfl⟩
  · intro h
    rw [resolveSalt, if_pos h]
  · intro h1 h2
    rw [resolveSalt, if_neg (by simp [h1]), if_pos h2]
  · intro h1 h2
    rw [resolveSalt, if_neg (by simp [h1]), if_neg (by simp [h2])]

/-- C10 witness: a non-empty flag wins over a non-empty environment value. -/
theorem resolveSalt_three_level_precedence_witness :
    resolveSalt "flag-salt" "env-salt" = "flag-salt" :=
  (resolveSalt_three_level_precedence "flag-salt" "env-salt").1 (by decide)

end Detkey
